import Mathlib

/-!
Verification of the snortsmith `_utils.py` validation module.

Strings are modelled as `List Char`. Fallible validators return `Except`,
mirroring Python functions that raise `ValueError`. Each definition is a
shallow embedding of the corresponding Python function.
-/

/-- Convert a Lean string literal to the `List Char` representation used
throughout this development. -/
def str (s : String) : List Char := s.data

/-- Characters matched by the regex class `\s` and stripped by Python
`str.strip()` (ASCII fragment). -/
def isPyWS (c : Char) : Bool :=
  c = ' ' || c = '\t' || c = '\n' || c = '\x0d' || c = '\x0b' || c = '\x0c'

/-- Numeric value of a list of decimal digit characters (most significant
first), as extracted from a regex capture group by `int(...)`. -/
def digitsToNat (s : List Char) : Nat :=
  s.foldl (fun a c => a * 10 + (c.toNat - 48)) 0

/-- ASCII lower-casing of a string, modelling Python `str.lower()` on the
inputs in scope. -/
def lowerStr (s : List Char) : List Char := s.map Char.toLower

/-- ASCII upper-casing of a string, modelling Python `str.upper()` on the
inputs in scope. -/
def upperStr (s : List Char) : List Char := s.map Char.toUpper

/-- The allowed TCP flag characters of `_validate_flags`:
the Python literal `set("FSRPAUCE0*+!,")`. -/
def allowedFlagChars : List Char := str "FSRPAUCE0*+!,"

/-- Embedding of `_validate_flags`: if every character of the input is in
`allowedFlagChars`, return the upper-cased input, else raise `ValueError`
naming the input. -/
def validateFlags (flags : List Char) : Except (List Char) (List Char) :=
  if flags.all (fun c => allowedFlagChars.contains c) then
    Except.ok (upperStr flags)
  else
    Except.error (str "Invalid character in TCP flags: " ++ flags)

/-- Python `str.strip()`: drop whitespace from both ends. -/
def pyStrip (s : List Char) : List Char :=
  ((s.dropWhile isPyWS).reverse.dropWhile isPyWS).reverse

/-- Digit tail of a Python integer literal: `(["_"] digit | digit)*`, with no
trailing underscore and no two consecutive underscores, accumulating the value. -/
def pyDigitsGo (acc : Nat) : List Char → Option Nat
  | [] => some acc
  | '_' :: c :: rest =>
      if c.isDigit then pyDigitsGo (acc * 10 + (c.toNat - 48)) rest else Option.none
  | ['_'] => Option.none
  | c :: rest =>
      if c.isDigit then pyDigitsGo (acc * 10 + (c.toNat - 48)) rest else Option.none

/-- Python integer-literal digit part: a digit followed by digits with optional
single underscores between them. -/
def pyDigits : List Char → Option Nat
  | [] => Option.none
  | c :: rest => if c.isDigit then pyDigitsGo (c.toNat - 48) rest else Option.none

/-- Embedding of Python `int(s)` on strings: strip whitespace, optional sign,
then an underscore-separated digit sequence; `none` models `ValueError`. -/
def pyInt (s : List Char) : Option Int :=
  match pyStrip s with
  | '+' :: rest => (pyDigits rest).map Int.ofNat
  | '-' :: rest => (pyDigits rest).map (fun n => -(n : Int))
  | rest => (pyDigits rest).map Int.ofNat

/-- Body of the `try` block of `_validate_port`: convert with `int`, then
either return the decimal representation or raise the range `ValueError`.
Any error here is caught by the `except ValueError` handler in
`validatePort`. -/
def portTried (value : List Char) : Except (List Char) (List Char) :=
  match pyInt value with
  | Option.none => Except.error (str "invalid literal for int() with base 10")
  | some port =>
      if 0 ≤ port ∧ port ≤ 65535 then Except.ok (Nat.repr port.toNat).data
      else Except.error (str "Port must be between 0 and 65535.")

/-- Embedding of `_validate_port`: accept `"any"` case-insensitively returning
the literal `"any"`; otherwise run the `try` block, replacing any `ValueError`
raised inside it (parse failure or the range error) with the generic
`Invalid port` message. -/
def validatePort (value : List Char) : Except (List Char) (List Char) :=
  if lowerStr value = str "any" then Except.ok (str "any")
  else
    match portTried value with
    | Except.ok r => Except.ok r
    | Except.error _ =>
        Except.error (str "Invalid port: must be an integer or 'any'.")

/-- The reserved characters of `_validate_msg`, the regex class
`[;\\"|']`. -/
def reservedChars : List Char := [';', '\\', '"', '|', '\'']

/-- The replacement dictionary of `_validate_msg`: each reserved character maps
to its two-character escape; note `'` maps to `\;`. -/
def escapeOf : Char → List Char
  | ';' => ['\\', ';']
  | '\\' => ['\\', '\\']
  | '"' => ['\\', '"']
  | '|' => ['\\', '|']
  | '\'' => ['\\', ';']
  | c => [c]

/-- One pass of `re.sub(r'(?<!\\)([;\\\"|\'])', escape_char, value)`: the
pattern is a single reserved character with a negative lookbehind on the
previous character of the original string, so a position is replaced exactly
when it holds a reserved character not preceded by a backslash in the input.
`prev` is the previous character of the original string. -/
def msgGo : Option Char → List Char → List Char
  | _, [] => []
  | prev, c :: rest =>
      (if reservedChars.contains c ∧ prev ≠ some '\\' then escapeOf c else [c])
        ++ msgGo (some c) rest

/-- Embedding of `_validate_msg`: escape reserved characters not already
preceded by a backslash; never fails. -/
def validateMsg (value : List Char) : List Char := msgGo Option.none value

/-- The Python condition `s and s.isdigit()` applied to an optional string:
the value as a natural number when the string is present, non-empty and all
digits; otherwise absent. -/
def optDigits : Option (List Char) → Option Nat
  | Option.none => Option.none
  | some s => if s ≠ [] ∧ s.all Char.isDigit then some (digitsToNat s) else Option.none

/-- The guard `offset_val is not None and depth_val is not None and
offset_val > depth_val` of `_validate_offset_depth`. -/
def offsetGtDepth : Option Nat → Option Nat → Bool
  | some o, some d => d < o
  | _, _ => false

/-- Embedding of `_validate_offset_depth`: each argument is converted to an
integer when present and all digits, else treated as absent; raises exactly
when both are present and offset exceeds depth. -/
def validateOffsetDepth (offset depth : Option (List Char)) :
    Except (List Char) (Option Nat × Option Nat) :=
  let offsetVal := optDigits offset
  let depthVal := optDigits depth
  if offsetGtDepth offsetVal depthVal then
    Except.error (str "Offset cannot be greater than depth.")
  else
    Except.ok (offsetVal, depthVal)

/-- Split a string at every occurrence of a separator character, modelling
Python `str.split(sep)`. -/
def splitOn (sep : Char) : List Char → List (List Char)
  | [] => [[]]
  | c :: rest =>
      let r := splitOn sep rest
      if c = sep then [] :: r
      else
        match r with
        | h :: t => (c :: h) :: t
        | [] => [[c]]

/-- Python `str.isidentifier()` (ASCII fragment): non-empty, first character a
letter or underscore, remaining characters alphanumeric or underscore. -/
def isIdentifier : List Char → Bool
  | [] => false
  | c :: rest => (c.isAlpha || c = '_') && rest.all (fun d => d.isAlphanum || d = '_')

/-- Errors of `_validate_metadata`, one constructor per `raise` site. -/
inductive MetaErr : Type
  | noSpace (seg : List Char)
  | badKey (key : List Char)
  | missingVal (key : List Char)

/-- Loop body of `_validate_metadata` for one stripped segment: require a
space, split at the first space into key and value, require the key to be an
identifier and the value to be non-empty. -/
def checkPart (part : List Char) : Except MetaErr Unit :=
  if ' ' ∉ part then Except.error (MetaErr.noSpace part)
  else if ¬ isIdentifier (part.takeWhile (fun c => c ≠ ' ')) then
    Except.error (MetaErr.badKey (part.takeWhile (fun c => c ≠ ' ')))
  else if (part.dropWhile (fun c => c ≠ ' ')).drop 1 = [] then
    Except.error (MetaErr.missingVal (part.takeWhile (fun c => c ≠ ' ')))
  else Except.ok ()

/-- Run `checkPart` over every segment, stopping at the first error. -/
def checkParts : List (List Char) → Except MetaErr Unit
  | [] => Except.ok ()
  | p :: rest =>
      match checkPart p with
      | Except.error e => Except.error e
      | Except.ok _ => checkParts rest

/-- Embedding of `_validate_metadata`: split on commas, strip each segment,
drop empty segments, validate each, and return the input unchanged on
success. -/
def validateMetadata (data : List Char) : Except MetaErr (List Char) :=
  match checkParts (((splitOn ',' data).map pyStrip).filter (fun p => p ≠ [])) with
  | Except.error e => Except.error e
  | Except.ok _ => Except.ok data

/-- A Python value as passed to `_resolve`: `PyVal.noneV` models `None`; the
other constructors cover the argument kinds in scope, including falsy values
such as `0`, `False` and the empty string. -/
inductive PyVal : Type
  | noneV : PyVal
  | intV (n : Int) : PyVal
  | boolV (b : Bool) : PyVal
  | strV (s : List Char) : PyVal
deriving DecidableEq

/-- Modelled from the spec: `_get_config_value` lives in `_config.py`, which
is not part of the sources; per the specification it returns "the value found
under the key in the configuration mapping", "itself subject to its own
default inside that lookup", i.e. the mapping's value for the key when
present, else the supplied default. -/
def getConfigValue (config : List (List Char × PyVal)) (key : List Char)
    (fallback : PyVal) : PyVal :=
  match config.lookup key with
  | some v => v
  | Option.none => fallback

/-- Embedding of `_resolve`: `arg_val if arg_val is not None else
_get_config_value(config, key, fallback)`. -/
def resolve (argVal : PyVal) (config : List (List Char × PyVal)) (key : List Char)
    (fallback : PyVal) : PyVal :=
  if argVal ≠ PyVal.noneV then argVal else getConfigValue config key fallback

/-- The literal part `sid:<sid>;` of the regex
`rf'sid:{sid};\s*rev:(\d+)'`, with the signature id rendered in decimal by
the f-string. -/
def sidMarker (sid : Nat) : List Char := str "sid:" ++ (Nat.repr sid).data ++ [';']

/-- Match a literal character sequence at the head of a string, returning the
remainder on success. -/
def dropLit : List Char → List Char → Option (List Char)
  | [], s => some s
  | _ :: _, [] => Option.none
  | p :: ps, c :: cs => if p = c then dropLit ps cs else Option.none

/-- Try the regex `sid:<sid>;\s*rev:(\d+)` anchored at the start of `s`,
returning the integer value of the capture group: the literal marker, then a
maximal run of whitespace, then `rev:`, then at least one digit (the capture
is the maximal digit run, as `\d+` is greedy). -/
def matchAt (sid : Nat) (s : List Char) : Option Nat :=
  match dropLit (sidMarker sid) s with
  | Option.none => Option.none
  | some r1 =>
      match dropLit (str "rev:") (r1.dropWhile isPyWS) with
      | Option.none => Option.none
      | some r2 =>
          let ds := r2.takeWhile Char.isDigit
          if ds = [] then Option.none else some (digitsToNat ds)

/-- `re.search` of the revision pattern on one line: try every start position
from the left and return the first (leftmost) match. -/
def searchLine (sid : Nat) : List Char → Option Nat
  | [] => Option.none
  | c :: rest =>
      match matchAt sid (c :: rest) with
      | some r => some r
      | Option.none => searchLine sid rest

/-- The loop of `_get_latest_revision`: fold over the lines keeping the
maximum revision seen, starting from `max_rev = 0`; a line contributes the
value of its leftmost match, when any. -/
def latestFold (sid : Nat) (lines : List (List Char)) : Nat :=
  lines.foldl
    (fun m line =>
      match searchLine sid line with
      | some r => max m r
      | Option.none => m)
    0

/-- Embedding of `_get_latest_revision` on the lines of an existing file:
`max_rev + 1 if max_rev else 1`. -/
def getLatestRevisionLines (lines : List (List Char)) (sid : Nat) : Nat :=
  let m := latestFold sid lines
  if m ≠ 0 then m + 1 else 1

/-- Embedding of `_get_latest_revision`: a file is `none` when no file exists
at the path (the `os.path.exists` check), else `some` of its lines. -/
def getLatestRevision (file : Option (List (List Char))) (sid : Nat) : Nat :=
  match file with
  | Option.none => 1
  | some lines => getLatestRevisionLines lines sid

/-- Every match occurrence of the revision pattern on one line: the values of
the pattern anchored at each start position, left to right (the leftmost
occurrence is the head). -/
def searchLineAll (sid : Nat) : List Char → List Nat
  | [] => []
  | c :: rest =>
      (match matchAt sid (c :: rest) with
       | some r => [r]
       | Option.none => []) ++ searchLineAll sid rest

/-- Modelled from the claim C2 reading of the spec: a revision lookup that
takes every occurrence of the pattern in the whole file into account, not
only the first occurrence of each line. -/
def latestRevisionAllOcc (lines : List (List Char)) (sid : Nat) : Nat :=
  match ((lines.map (searchLineAll sid)).flatten).max? with
  | some m => m + 1
  | Option.none => 1

/-- The offset/depth contract as the claim states it: when both inputs are
present digit strings whose values satisfy offset > depth, the
`offset cannot exceed depth` failure; in every other case the pair
(offset-as-integer-or-absent, depth-as-integer-or-absent). -/
def offsetDepthSpec (offset depth : Option (List Char)) :
    Except (List Char) (Option Nat × Option Nat) :=
  match optDigits offset, optDigits depth with
  | some o, some d =>
      if d < o then Except.error (str "Offset cannot be greater than depth.")
      else Except.ok (some o, some d)
  | o, d => Except.ok (o, d)

/-- Result classifier for C10: whether the metadata validator returned the
`Missing value for metadata key` error. -/
def metaErrIsMissing : Except MetaErr (List Char) → Bool
  | Except.error (MetaErr.missingVal _) => true
  | _ => false

theorem latestFold_eq_filterMap (sid : Nat) (lines : List (List Char)) :
    ∀ acc : Nat,
      lines.foldl
          (fun m line =>
            match searchLine sid line with
            | some r => max m r
            | Option.none => m)
          acc
        = (lines.filterMap (searchLine sid)).foldl max acc := by
  induction lines with
  | nil => intro acc; rfl
  | cons l ls ih =>
      intro acc
      cases h : searchLine sid l with
      | none => simp only [List.foldl_cons, List.filterMap_cons, h]; exact ih acc
      | some r => simp only [List.foldl_cons, List.filterMap_cons, h]; exact ih (max acc r)

theorem foldl_max_acc (l : List Nat) : ∀ a : Nat, l.foldl max a = max a (l.foldl max 0) := by
  induction l with
  | nil => intro a; simp
  | cons x xs ih =>
      intro a
      simp only [List.foldl_cons]
      rw [ih (max a x), ih (max 0 x), Nat.zero_max, max_assoc]

theorem foldl_max_eq_maxD (l : List Nat) : l.foldl max 0 = (l.max?).getD 0 := by
  cases l with
  | nil => rfl
  | cons a as => simp only [List.foldl_cons, Nat.zero_max]; rfl

theorem latestRevLines_eq (lines : List (List Char)) (sid : Nat) :
    getLatestRevisionLines lines sid =
      match (lines.filterMap (searchLine sid)).max? with
      | some m => m + 1
      | Option.none => 1 := by
  unfold getLatestRevisionLines latestFold
  rw [latestFold_eq_filterMap, foldl_max_eq_maxD]
  cases h : (lines.filterMap (searchLine sid)).max? with
  | none => rfl
  | some m =>
      by_cases hm : m = 0
      · subst hm; simp
      · simp [hm]

/-- C1: for every file and signature id, the revision lookup returns 1 when no
file exists; otherwise, when at least one line matches `sid:<ID>;` followed by
optional whitespace and `rev:<digits>`, it returns 1 plus the maximum
extracted revision number over all matching lines, and 1 when no line
matches. -/
theorem C1_latest_revision_spec (file : Option (List (List Char))) (sid : Nat) :
    getLatestRevision file sid =
      match file with
      | Option.none => 1
      | some lines =>
          match (lines.filterMap (searchLine sid)).max? with
          | some m => m + 1
          | Option.none => 1 := by
  cases file with
  | none => rfl
  | some lines => exact latestRevLines_eq lines sid

theorem searchLine_eq_head (sid : Nat) (l : List Char) :
    searchLine sid l = (searchLineAll sid l).head? := by
  induction l with
  | nil => rfl
  | cons c rest ih =>
      simp only [searchLine, searchLineAll]
      cases h : matchAt sid (c :: rest) with
      | some r => simp [h]
      | none => simp [h, ih]

/-- C2, corrected: on a line holding several occurrences of the marker, only
the leftmost occurrence is extracted (`re.search` per line): the result is 1
plus the maximum over the lines of the revision of each line's leftmost
occurrence, not the maximum over all occurrences. -/
theorem C2_first_occurrence_per_line (lines : List (List Char)) (sid : Nat) :
    getLatestRevisionLines lines sid =
      match (lines.filterMap (fun l => (searchLineAll sid l).head?)).max? with
      | some m => m + 1
      | Option.none => 1 := by
  simp only [← searchLine_eq_head]
  exact latestRevLines_eq lines sid

/-- C2, counterexample: a single line holding the occurrences `rev:3` and
`rev:7` for sid 100 yields 4 (leftmost only), while the claimed
all-occurrences lookup yields 8. -/
theorem C2_counterexample :
    getLatestRevisionLines [str "sid:100; rev:3 sid:100; rev:7"] 100 = 4
      ∧ latestRevisionAllOcc [str "sid:100; rev:3 sid:100; rev:7"] 100 = 8 :=
  ⟨rfl, rfl⟩

/-- C3: the claim says lower-case letters are accepted (case-insensitive) and
upper-cased on return; the code tests membership in the upper-case-only set
before upper-casing, so the lower-case input `s` is rejected with the
`ValueError`, while `S` is accepted; the `flags.upper()` on the accept path is
an identity. This theorem evaluates the code at the failing input. -/
theorem C3_lowercase_flag_rejected :
    validateFlags (str "s") = Except.error (str "Invalid character in TCP flags: s")
      ∧ validateFlags (str "S") = Except.ok (str "S")
      ∧ upperStr (str "s") = str "S" :=
  ⟨rfl, rfl, rfl⟩

theorem msgGo_escaped_tail (c : Char) (p : List Char) :
    ∀ prev, msgGo prev (p ++ ['\\', c]) = msgGo prev (p ++ ['\\']) ++ [c] := by
  induction p with
  | nil =>
      intro prev
      simp [msgGo]
  | cons d rest ih =>
      intro prev
      simp only [List.cons_append, msgGo, List.append_eq, ih, List.append_assoc]

/-- C4, corrected: a reserved character already preceded by a backslash is
itself left untouched (emitted verbatim after the escaped prefix), but the
backslash preceding it is a reserved character too and is escaped whenever it
is not itself preceded by a backslash; hence `msg_escape("a;b") = "a\;b"`
while `msg_escape` maps `a\;b` to `a\\;b`, not the unchanged input. -/
theorem C4_escaped_char_untouched (p : List Char) (c : Char) (_hc : c ∈ reservedChars) :
    validateMsg (p ++ ['\\', c]) = validateMsg (p ++ ['\\']) ++ [c]
      ∧ validateMsg (str "a;b") = str "a\\;b"
      ∧ validateMsg (str "a\\;b") = str "a\\\\;b" :=
  ⟨msgGo_escaped_tail c p Option.none, rfl, rfl⟩

/-- C4, witness: the general part of the corrected claim applied to the
prefix `a` and the reserved character `;`. -/
theorem C4_escaped_char_untouched_witness :
    validateMsg (str "a" ++ ['\\', ';']) = validateMsg (str "a" ++ ['\\']) ++ [';'] :=
  (C4_escaped_char_untouched (str "a") ';' (by decide)).1

/-- C4, counterexample: the claim says `msg_escape` leaves the already-escaped
string `a\;b` unchanged; the code escapes the escaping backslash and returns
`a\\;b`. -/
theorem C4_counterexample :
    validateMsg (str "a\\;b") = str "a\\\\;b" ∧ validateMsg (str "a\\;b") ≠ str "a\\;b" :=
  ⟨rfl, by decide⟩

/-- C5, counterexample: the claim says the input string is returned unchanged
when it case-insensitively equals `any`, but `_validate_port("ANY")` returns
the literal lower-case `"any"`, not the input `"ANY"`. -/
theorem C5_counterexample :
    validatePort (str "ANY") = Except.ok (str "any") ∧ str "any" ≠ str "ANY" :=
  ⟨rfl, by decide⟩

/-- C5, corrected: the port validator succeeds exactly when the input
case-insensitively equals `any` or parses as an integer in `[0, 65535]`, and
fails with a `ValueError` otherwise; when the input is `any` in any letter
case, the literal lower-case string `any` is returned. -/
theorem C5_port_accepts (value : List Char) :
    ((∃ r, validatePort value = Except.ok r) ↔
        lowerStr value = str "any"
          ∨ ∃ n : Int, pyInt value = some n ∧ 0 ≤ n ∧ n ≤ 65535)
      ∧ (lowerStr value = str "any" → validatePort value = Except.ok (str "any")) := by
  constructor
  · constructor
    · rintro ⟨r, hr⟩
      by_cases h : lowerStr value = str "any"
      · exact Or.inl h
      · right
        rw [validatePort, if_neg h] at hr
        cases hp : pyInt value with
        | none => simp [portTried, hp] at hr
        | some n =>
            refine ⟨n, rfl, ?_⟩
            simp only [portTried, hp] at hr
            by_cases hn : 0 ≤ n ∧ n ≤ 65535
            · exact hn
            · rw [if_neg hn] at hr
              simp at hr
    · intro h
      cases h with
      | inl h => exact ⟨str "any", by rw [validatePort, if_pos h]⟩
      | inr h =>
          obtain ⟨n, hp, h0, h65⟩ := h
          by_cases hl : lowerStr value = str "any"
          · exact ⟨str "any", by rw [validatePort, if_pos hl]⟩
          · refine ⟨(Nat.repr n.toNat).data, ?_⟩
            rw [validatePort, if_neg hl]
            simp only [portTried, hp]
            rw [if_pos (show 0 ≤ n ∧ n ≤ 65535 from ⟨h0, h65⟩)]
  · intro h
    rw [validatePort, if_pos h]

/-- C5, witness: the corrected claim applied to the inputs `ANY` (returns the
literal `any`) and `65535` (succeeds as an in-range integer). -/
theorem C5_port_accepts_witness :
    validatePort (str "ANY") = Except.ok (str "any")
      ∧ (∃ r, validatePort (str "65535") = Except.ok r) :=
  ⟨(C5_port_accepts (str "ANY")).2 (by rfl),
    (C5_port_accepts (str "65535")).1.mpr (Or.inr ⟨65535, by rfl, by decide, by decide⟩)⟩

/-- C6: the claim says a numeric out-of-range port and a non-numeric port fail
with distinct messages; in the code the range `ValueError` is raised inside
the `try` block and caught by its own `except ValueError`, so both failure
classes surface the same generic message. The last conjunct shows the range
message the `try` body produced before it was swallowed. -/
theorem C6_port_messages_collide :
    validatePort (str "65536")
        = Except.error (str "Invalid port: must be an integer or 'any'.")
      ∧ validatePort (str "abc")
        = Except.error (str "Invalid port: must be an integer or 'any'.")
      ∧ portTried (str "65536") = Except.error (str "Port must be between 0 and 65535.") :=
  ⟨rfl, rfl, rfl⟩

/-- C7: for every pair of optional inputs, a missing or non-digit input is
treated as absent without error, the validator fails exactly when both inputs
are digit strings with offset > depth, and otherwise returns the pair of
parsed-or-absent values. -/
theorem C7_offset_depth_spec (offset depth : Option (List Char)) :
    validateOffsetDepth offset depth = offsetDepthSpec offset depth := by
  unfold validateOffsetDepth offsetDepthSpec
  cases ho : optDigits offset with
  | none => cases hd : optDigits depth with
    | none => rfl
    | some d => rfl
  | some o => cases hd : optDigits depth with
    | none => rfl
    | some d =>
        simp only [offsetGtDepth]
        by_cases h : d < o
        · rw [if_pos (by exact decide_eq_true h), if_pos h]
        · rw [if_neg (by simpa using h), if_neg h]

/-- C8: `_resolve` observes the fixed precedence order: a present (non-`None`)
direct argument wins; otherwise the configuration mapping's value for the key
when the key is present; otherwise the supplied fallback. The configuration
lookup `_get_config_value` lives outside the sources and is modelled from the
spec. -/
theorem C8_resolve_precedence (argVal : PyVal) (config : List (List Char × PyVal))
    (key : List Char) (fallback : PyVal) :
    (argVal ≠ PyVal.noneV → resolve argVal config key fallback = argVal)
      ∧ (argVal = PyVal.noneV → ∀ v, config.lookup key = some v →
          resolve argVal config key fallback = v)
      ∧ (argVal = PyVal.noneV → config.lookup key = Option.none →
          resolve argVal config key fallback = fallback) := by
  refine ⟨fun h => ?_, fun h v hv => ?_, fun h hk => ?_⟩
  · rw [resolve, if_pos h]
  · rw [resolve, if_neg (by simp [h]), getConfigValue, hv]
  · rw [resolve, if_neg (by simp [h]), getConfigValue, hk]

/-- C8, witness: the precedence theorem applied to a direct value `x`, to an
absent direct value with the key `k` mapped to `c`, and to an absent direct
value with an empty configuration and fallback `d`. -/
theorem C8_resolve_precedence_witness :
    resolve (PyVal.strV (str "x")) [(str "k", PyVal.strV (str "c"))] (str "k")
        (PyVal.strV (str "d")) = PyVal.strV (str "x")
      ∧ resolve PyVal.noneV [(str "k", PyVal.strV (str "c"))] (str "k")
        (PyVal.strV (str "d")) = PyVal.strV (str "c")
      ∧ resolve PyVal.noneV [] (str "k") (PyVal.strV (str "d")) = PyVal.strV (str "d") :=
  ⟨(C8_resolve_precedence (PyVal.strV (str "x")) [(str "k", PyVal.strV (str "c"))]
      (str "k") (PyVal.strV (str "d"))).1 (by decide),
    (C8_resolve_precedence PyVal.noneV [(str "k", PyVal.strV (str "c"))]
      (str "k") (PyVal.strV (str "d"))).2.1 rfl (PyVal.strV (str "c")) (by rfl),
    (C8_resolve_precedence PyVal.noneV [] (str "k")
      (PyVal.strV (str "d"))).2.2 rfl (by rfl)⟩

/-- C9: `_resolve` treats only `None` as an absent direct value: every
non-`None` argument, including the falsy values `0`, `False` and the empty
string, is returned as is, and neither the configuration mapping nor the
fallback can influence the result. -/
theorem C9_resolve_only_none_absent (argVal : PyVal) (h : argVal ≠ PyVal.noneV)
    (config config2 : List (List Char × PyVal)) (key key2 : List Char)
    (fallback fallback2 : PyVal) :
    resolve argVal config key fallback = argVal
      ∧ resolve argVal config key fallback = resolve argVal config2 key2 fallback2 := by
  rw [resolve, resolve, if_pos h, if_pos h]
  exact ⟨rfl, rfl⟩

/-- C9, witness: the falsy values `0`, `False` and the empty string are all
returned even when the configuration maps the key to another value. -/
theorem C9_resolve_only_none_absent_witness :
    resolve (PyVal.intV 0) [(str "k", PyVal.strV (str "c"))] (str "k")
        (PyVal.strV (str "d")) = PyVal.intV 0
      ∧ resolve (PyVal.boolV false) [(str "k", PyVal.strV (str "c"))] (str "k")
        (PyVal.strV (str "d")) = PyVal.boolV false
      ∧ resolve (PyVal.strV []) [(str "k", PyVal.strV (str "c"))] (str "k")
        (PyVal.strV (str "d")) = PyVal.strV [] :=
  ⟨(C9_resolve_only_none_absent (PyVal.intV 0) (by decide)
      [(str "k", PyVal.strV (str "c"))] [] (str "k") [] (PyVal.strV (str "d"))
      PyVal.noneV).1,
    (C9_resolve_only_none_absent (PyVal.boolV false) (by decide)
      [(str "k", PyVal.strV (str "c"))] [] (str "k") [] (PyVal.strV (str "d"))
      PyVal.noneV).1,
    (C9_resolve_only_none_absent (PyVal.strV []) (by decide)
      [(str "k", PyVal.strV (str "c"))] [] (str "k") [] (PyVal.strV (str "d"))
      PyVal.noneV).1⟩

theorem head?_dropWhile_false (p : Char → Bool) (l : List Char) (c : Char)
    (h : (l.dropWhile p).head? = some c) : p c = false := by
  induction l with
  | nil => cases h
  | cons a rest ih =>
      rw [List.dropWhile_cons] at h
      by_cases ha : p a
      · rw [if_pos ha] at h; exact ih h
      · rw [if_neg ha] at h
        injection h with h2
        subst h2
        simpa using ha

theorem pyStrip_getLast_not_ws (s : List Char) (c : Char)
    (h : (pyStrip s).getLast? = some c) : isPyWS c = false := by
  unfold pyStrip at h
  rw [List.getLast?_reverse] at h
  exact head?_dropWhile_false isPyWS _ c h

theorem space_tail_ne_nil (l : List Char) (hm : ' ' ∈ l)
    (hlast : ∀ c, l.getLast? = some c → isPyWS c = false) :
    (l.dropWhile (fun c => c ≠ ' ')).drop 1 ≠ [] := by
  induction l with
  | nil => cases hm
  | cons c rest ih =>
      by_cases hc : c = ' '
      · subst hc
        rw [List.dropWhile_cons, if_neg (by simp), List.drop_one, List.tail_cons]
        intro hrest
        subst hrest
        have := hlast ' ' rfl
        simp [isPyWS] at this
      · have hm' : ' ' ∈ rest := by
          cases hm with
          | head => exact absurd rfl hc
          | tail _ h => exact h
        have hrest_ne : rest ≠ [] := fun h => by subst h; cases hm'
        obtain ⟨d, rs, rfl⟩ : ∃ d rs, rest = d :: rs := by
          cases rest with
          | nil => exact absurd rfl hrest_ne
          | cons d rs => exact ⟨d, rs, rfl⟩
        rw [List.dropWhile_cons, if_pos (by simpa using hc)]
        exact ih hm' (fun e he => hlast e (by rwa [List.getLast?_cons_cons]))

theorem checkPart_no_missing (p : List Char)
    (hv : ' ' ∈ p → (p.dropWhile (fun c => c ≠ ' ')).drop 1 ≠ []) (k : List Char) :
    checkPart p ≠ Except.error (MetaErr.missingVal k) := by
  intro h
  unfold checkPart at h
  by_cases hm : ' ' ∈ p
  · rw [if_neg (not_not_intro hm)] at h
    by_cases hid : isIdentifier (p.takeWhile (fun c => c ≠ ' ')) = true
    · rw [if_neg (not_not_intro hid), if_neg (hv hm)] at h
      exact Except.noConfusion h
    · rw [if_pos hid] at h
      injection h with h2
      exact MetaErr.noConfusion h2
  · rw [if_pos hm] at h
    injection h with h2
    exact MetaErr.noConfusion h2

theorem checkParts_no_missing (ps : List (List Char))
    (hp : ∀ p ∈ ps, ' ' ∈ p → (p.dropWhile (fun c => c ≠ ' ')).drop 1 ≠ [])
    (k : List Char) : checkParts ps ≠ Except.error (MetaErr.missingVal k) := by
  induction ps with
  | nil => intro h; exact Except.noConfusion h
  | cons p rest ih =>
      intro h
      unfold checkParts at h
      cases hcp : checkPart p with
      | error e =>
          rw [hcp] at h
          injection h with h2
          subst h2
          exact checkPart_no_missing p (hp p (List.mem_cons_self p rest)) k hcp
      | ok u =>
          rw [hcp] at h
          exact ih (fun q hq => hp q (List.mem_cons_of_mem p hq)) h

/-- C10: the `Missing value for metadata key` branch of `_validate_metadata`
is unreachable: every stripped, non-empty segment that contains a space ends
in a non-whitespace character, so splitting at the first space leaves a
non-empty remainder; for every input the validator can fail only through the
no-space or invalid-key checks. -/
theorem C10_missing_value_unreachable (data : List Char) :
    metaErrIsMissing (validateMetadata data) = false := by
  have hparts : ∀ p ∈ ((splitOn ',' data).map pyStrip).filter (fun p => p ≠ []),
      ' ' ∈ p → (p.dropWhile (fun c => c ≠ ' ')).drop 1 ≠ [] := by
    intro p hpmem hsp
    have hmap : p ∈ (splitOn ',' data).map pyStrip := List.mem_of_mem_filter hpmem
    obtain ⟨x, _, rfl⟩ := List.mem_map.mp hmap
    exact space_tail_ne_nil _ hsp (pyStrip_getLast_not_ws x)
  unfold validateMetadata
  cases hc : checkParts (((splitOn ',' data).map pyStrip).filter (fun p => p ≠ [])) with
  | ok u => rfl
  | error e =>
      cases e with
      | noSpace s => rfl
      | badKey kk => rfl
      | missingVal kk => exact absurd hc (checkParts_no_missing _ hparts kk)
